import Mathlib

/-!
Shallow embedding of the `qp` Go package (query-parameter parsing) and
proofs of the specification claims about it.

The embedding models:
  * `url.Values` lookup (`u.Query()[key]`) as an association-list lookup
    that returns the ordered list of raw values for a key;
  * `Result[T]` as a Lean structure with the same fields; Go `nil` slices
    and `nil` `Others` lists are modelled with `Option`;
  * `strconv.Atoi` over `Int` (with the 64-bit range check),
    `strconv.ParseFloat` idealized over `ℚ` (exact decimal arithmetic,
    no IEEE rounding; hex floats, inf and nan are not modelled),
    `strings.Split(s, ",")` and `strings.ToLower` (ASCII);
  * every `Parse*`, `Get*` and `Pull*` function of the package.
-/

namespace QP

/-- A parsed query (`url.Values` source order): the ordered list of
`(key, value)` pairs of the URL's query string. -/
abbrev Query := List (String × String)

/-- Model of `u.Query()[key]`: the ordered list of raw values associated
with `key`; the key is present (`ok`) iff the list is nonempty. -/
def queryGet (u : Query) (key : String) : List String :=
  (u.filter (fun p => p.1 == key)).map (fun p => p.2)

/-- Model of the Go generic structure `Result[T]`.  `Others` models the
Go slice `[]T` including its `nil` state (`none`); for slice-typed
results `T` itself is `Option (List β)` so that `nil` and empty slices
stay distinguishable.  `Error` models the `error` field as an optional
message. -/
structure Result (α : Type) where
  Key : String
  Value : α
  Default : α
  Min : α
  Max : α
  Others : Option (List α)
  Empty : Bool
  Contains : Bool
  Error : Option String
deriving Repr, DecidableEq

/-- Model of `result.Others != nil && g.In(value, result.Others...)`. -/
def inOthers {α : Type} [DecidableEq α] (others : Option (List α)) (v : α) : Bool :=
  match others with
  | some os => os.contains v
  | none => false

/-- Model of `strings.Split` with a single-character separator, at the
level of character lists. -/
def splitChar (sep : Char) : List Char → List (List Char)
  | [] => [[]]
  | c :: rest =>
    if c = sep then [] :: splitChar sep rest
    else
      match splitChar sep rest with
      | [] => [[c]]
      | g :: gs => (c :: g) :: gs

/-- Model of `strings.Split(s, ",")`. -/
def splitComma (s : String) : List String :=
  (splitChar ',' s.data).map String.mk

/-- Join character lists with a separator (inverse of `splitChar` on
separator-free pieces); used to state the dual-syntax claims. -/
def joinChar (sep : Char) : List (List Char) → List Char
  | [] => []
  | [x] => x
  | x :: xs => x ++ sep :: joinChar sep xs

/-- The raw value `"a,b,c"` that encodes the literal list `lits` as one
comma-separated query occurrence. -/
def commaJoin (lits : List String) : String :=
  String.mk (joinChar ',' (lits.map String.data))

/-- The query `?k=a,b,c`: one comma-separated occurrence of `key`. -/
def commaQ (key : String) (lits : List String) : Query :=
  [(key, commaJoin lits)]

/-- The query `?k=a&k=b&k=c`: one occurrence of `key` per literal. -/
def repQ (key : String) (lits : List String) : Query :=
  lits.map (fun s => (key, s))

/-- Decimal digit value of a character, if it is a digit. -/
def digitVal (c : Char) : Option Nat :=
  if '0' ≤ c ∧ c ≤ '9' then some (c.toNat - '0'.toNat) else none

/-- Accumulating base-10 parse of a digit string; fails on any
non-digit character. -/
def parseDigitsAux (acc : Nat) : List Char → Option Nat
  | [] => some acc
  | c :: rest =>
    match digitVal c with
    | none => none
    | some d => parseDigitsAux (acc * 10 + d) rest

/-- Digits-with-sign part of `strconv.Atoi`: requires at least one
digit and the signed value to fit in a 64-bit `int`. -/
def atoiDigits (sign : Int) (ds : List Char) : Option Int :=
  if ds = [] then none
  else
    match parseDigitsAux 0 ds with
    | none => none
    | some n =>
      let v : Int := sign * (n : Int)
      if -(2 ^ 63) ≤ v ∧ v ≤ 2 ^ 63 - 1 then some v else none

/-- Model of `strconv.Atoi` (base 10, optional sign, 64-bit range). -/
def Atoi (s : String) : Option Int :=
  match s.data with
  | [] => none
  | c :: rest =>
    if c = '+' then atoiDigits 1 rest
    else if c = '-' then atoiDigits (-1) rest
    else atoiDigits 1 (c :: rest)

/-- ASCII lower-casing of one character (model of `strings.ToLower` per
character; the boolean synonyms are all ASCII). -/
def lowerChar (c : Char) : Char :=
  if 'A' ≤ c ∧ c ≤ 'Z' then Char.ofNat (c.toNat + 32) else c

/-- Model of `strings.ToLower` (ASCII). -/
def lowerString (s : String) : String :=
  String.mk (s.data.map lowerChar)

/-- Modelled from the spec: the helper `parseBoolValue` is declared and
called in the sources (`bool.go`, tested by `TestParseBoolValue` in
`qp_test.go`) but its definition file is missing from the sources.  Per
the spec it recognizes, case-insensitively, the synonym pairs `1`/`0`,
`true`/`false`, `yes`/`no`, `on`/`off`, and fails on anything else
(the test additionally confirms that `parseBoolValue` itself is
case-insensitive and rejects the empty string). -/
def parseBoolValue (s : String) : Option Bool :=
  let raw := lowerString s
  if raw = "1" ∨ raw = "true" ∨ raw = "yes" ∨ raw = "on" then some true
  else if raw = "0" ∨ raw = "false" ∨ raw = "no" ∨ raw = "off" then some false
  else none

/-- Mantissa part of `strconv.ParseFloat` idealized over `ℚ`: digits
with an optional decimal point, at least one digit overall. -/
def parseMantissa (m : List Char) : Option ℚ :=
  match splitChar '.' m with
  | [ip] =>
    if ip = [] then none
    else (parseDigitsAux 0 ip).map (fun n => (n : ℚ))
  | [ip, fp] =>
    if ip = [] ∧ fp = [] then none
    else
      match parseDigitsAux 0 (ip ++ fp) with
      | none => none
      | some n => some ((n : ℚ) / (10 : ℚ) ^ fp.length)
  | _ => none

/-- Signed decimal integer (exponent part of `strconv.ParseFloat`). -/
def parseSignedInt (ex : List Char) : Option Int :=
  match ex with
  | [] => none
  | c :: rest =>
    if c = '+' then (if rest = [] then none else (parseDigitsAux 0 rest).map (fun n => (n : Int)))
    else if c = '-' then (if rest = [] then none else (parseDigitsAux 0 rest).map (fun n => -(n : Int)))
    else (parseDigitsAux 0 (c :: rest)).map (fun n => (n : Int))

/-- Idealized model of `strconv.ParseFloat(s, 64)` over exact rationals:
optional sign, decimal mantissa, optional decimal exponent.  IEEE
rounding and overflow, hex floats, `inf` and `nan` are not modelled;
the claims proved below never depend on those aspects. -/
def goFloatConv (s : String) : Option ℚ :=
  match s.data.map lowerChar with
  | [] => none
  | c :: rest =>
    let sign : ℚ := if c = '-' then -1 else 1
    let body : List Char := if c = '+' ∨ c = '-' then rest else c :: rest
    match splitChar 'e' body with
    | [m] => (parseMantissa m).map (fun q => sign * q)
    | [m, ex] =>
      match parseMantissa m, parseSignedInt ex with
      | some q, some e => some (sign * q * (10 : ℚ) ^ e)
      | _, _ => none
    | _ => none

/-- Model of the per-element conversion loop of the slice parsers:
convert each raw string, returning the first failing string (whose
value goes into the error message) or the list of converted values. -/
def convList {β : Type} (conv : String → Option β) : List String → Except String (List β)
  | [] => .ok []
  | s :: rest =>
    match conv s with
    | none => .error s
    | some v =>
      match convList conv rest with
      | .ok vs => .ok (v :: vs)
      | .error e => .error e

/-- Core of `ParseInt` / `ParseFloat` (`int.go`, `float.go`: the two
function bodies are identical up to the element type and conversion
function), applied to the looked-up raw value list `data`.  The first
`match` models the variadic-option dispatch (`len(opt)` 0 / 1 / ≥ 2,
with the min/max swap and the `Others` slice for `len(opt) > 2`); the
second models the absent / empty / convert / validate chain. -/
def parseNumData {α : Type} [LinearOrder α] [DecidableEq α]
    (zero : α) (conv : String → Option α) (toStr : α → String)
    (key : String) (opt : List α) (data : List String) : Result α :=
  let r0 : Result α :=
    { Key := key, Value := zero, Default := zero, Min := zero, Max := zero
      Others := none, Empty := false, Contains := true, Error := none }
  let r1 : Result α :=
    match opt with
    | [] => r0
    | [d] => { r0 with Default := d, Value := d }
    | a :: b :: rest =>
      let mn := if a > b then b else a
      let mx := if a > b then a else b
      { r0 with Min := mn, Max := mx, Default := a, Value := a
                Others := if rest = [] then none else some rest }
  match data with
  | [] => { r1 with Empty := true, Contains := false }
  | raw :: _ =>
    if raw = "" then { r1 with Empty := true, Contains := true }
    else
      match conv raw with
      | none => { r1 with Error := some ("invalid value for key " ++ key ++ ": " ++ raw) }
      | some value =>
        if opt.length < 2 then { r1 with Value := value }
        else if r1.Min ≤ value ∧ value ≤ r1.Max then { r1 with Value := value }
        else if inOthers r1.Others value then { r1 with Value := value }
        else { r1 with Error := some ("value out of range for key " ++ key ++ ": " ++ toStr value) }

/-- `ParseInt` (`int.go`). -/
def ParseInt (u : Query) (key : String) (opt : List Int) : Result Int :=
  parseNumData 0 Atoi (fun v => toString v) key opt (queryGet u key)

/-- `ParseFloat` (`float.go`), over the idealized `ℚ` float model. -/
def ParseFloat (u : Query) (key : String) (opt : List ℚ) : Result ℚ :=
  parseNumData 0 goFloatConv (fun v => toString v) key opt (queryGet u key)

/-- Core of `ParseString` (`string.go` and its duplicate in the
unnamed source part; the two bodies are identical): options dispatch
(`len(opt)` 0 / 1 / > 1, where the whole option list including the
default becomes `Others`), then absent / empty / allow-list chain. -/
def parseStringData (key : String) (opt : List String) (data : List String) : Result String :=
  let r0 : Result String :=
    { Key := key, Value := "", Default := "", Min := "", Max := ""
      Others := none, Empty := false, Contains := true, Error := none }
  let r1 : Result String :=
    match opt with
    | [] => r0
    | [d] => { r0 with Default := d, Value := d }
    | d :: _ :: _ => { r0 with Default := d, Value := d, Others := some opt }
  match data with
  | [] => { r1 with Empty := true, Contains := false }
  | raw :: _ =>
    if raw = "" then { r1 with Empty := true, Contains := true }
    else
      if opt.length < 2 then { r1 with Value := raw }
      else if inOthers r1.Others raw then { r1 with Value := raw }
      else { r1 with Error := some ("value out of range for key " ++ key ++ ": " ++ raw) }

/-- `ParseString` (`string.go`). -/
def ParseString (u : Query) (key : String) (opt : List String) : Result String :=
  parseStringData key opt (queryGet u key)

/-- Core of `ParseBool` (`bool.go`): a single optional default
(only `opt[0]` is ever read), then absent / empty / convert chain;
the raw value is lower-cased before `parseBoolValue`. -/
def parseBoolData (key : String) (opt : List Bool) (data : List String) : Result Bool :=
  let r0 : Result Bool :=
    { Key := key, Value := false, Default := false, Min := false, Max := false
      Others := none, Empty := false, Contains := true, Error := none }
  let r1 : Result Bool :=
    match opt with
    | [] => r0
    | d :: _ => { r0 with Default := d, Value := d }
  match data with
  | [] => { r1 with Empty := true, Contains := false }
  | raw :: _ =>
    if raw = "" then { r1 with Empty := true, Contains := true }
    else
      match parseBoolValue (lowerString raw) with
      | none => { r1 with Error := some ("invalid value for key " ++ key ++ ": " ++ raw) }
      | some value => { r1 with Value := value }

/-- `ParseBool` (`bool.go`). -/
def ParseBool (u : Query) (key : String) (opt : List Bool) : Result Bool :=
  parseBoolData key opt (queryGet u key)

/-- Core of `ParseIntSlice` / `ParseFloatSlice` / `ParseBoolSlice`
(`int.go`, `float.go`, `bool.go`: identical up to the element
conversion).  The value type is `Option (List β)`: `none` models a Go
`nil` slice.  A default sequence may be supplied (only `opt[0]` is
read); conversion failures discard the whole list (`Value = some []`). -/
def parseSliceData {β : Type} (conv : String → Option β)
    (key : String) (opt : List (Option (List β))) (data : List String) :
    Result (Option (List β)) :=
  let r0 : Result (Option (List β)) :=
    { Key := key, Value := none, Default := none, Min := none, Max := none
      Others := none, Empty := false, Contains := true, Error := none }
  let r1 : Result (Option (List β)) := { r0 with Default := some [], Value := some [] }
  let r2 : Result (Option (List β)) :=
    match opt with
    | [] => r1
    | d :: _ => { r1 with Default := d, Value := d }
  match data with
  | [] => { r2 with Empty := true, Contains := false }
  | raw :: rest =>
    if raw = "" then { r2 with Empty := true, Contains := true }
    else
      match convList conv (if rest = [] then splitComma raw else raw :: rest) with
      | .error s =>
        { r2 with Error := some ("invalid value for key " ++ key ++ ": " ++ s)
                  Value := some [] }
      | .ok vs => { r2 with Value := some vs }

/-- `ParseIntSlice` (`int.go`). -/
def ParseIntSlice (u : Query) (key : String) (opt : List (Option (List Int))) :
    Result (Option (List Int)) :=
  parseSliceData Atoi key opt (queryGet u key)

/-- `ParseFloatSlice` (`float.go`). -/
def ParseFloatSlice (u : Query) (key : String) (opt : List (Option (List ℚ))) :
    Result (Option (List ℚ)) :=
  parseSliceData goFloatConv key opt (queryGet u key)

/-- `ParseBoolSlice` (`bool.go`); elements go through `parseBoolValue`
directly (no extra lower-casing in the slice loop). -/
def ParseBoolSlice (u : Query) (key : String) (opt : List (Option (List Bool))) :
    Result (Option (List Bool)) :=
  parseSliceData parseBoolValue key opt (queryGet u key)

/-- Core of `ParseStringSlice` (unnamed source part with the optional
default sequence): no element conversion, the same absent / empty /
split chain as the other slice parsers. -/
def parseStringSliceData (key : String) (opt : List (Option (List String)))
    (data : List String) : Result (Option (List String)) :=
  let r0 : Result (Option (List String)) :=
    { Key := key, Value := none, Default := none, Min := none, Max := none
      Others := none, Empty := false, Contains := true, Error := none }
  let r1 : Result (Option (List String)) := { r0 with Default := some [], Value := some [] }
  let r2 : Result (Option (List String)) :=
    match opt with
    | [] => r1
    | d :: _ => { r1 with Default := d, Value := d }
  match data with
  | [] => { r2 with Empty := true, Contains := false }
  | raw :: rest =>
    if raw = "" then { r2 with Empty := true, Contains := true }
    else if rest = [] then { r2 with Value := some (splitComma raw) }
    else { r2 with Value := some (raw :: rest) }

/-- `ParseStringSlice` (unnamed source part). -/
def ParseStringSlice (u : Query) (key : String) (opt : List (Option (List String))) :
    Result (Option (List String)) :=
  parseStringSliceData key opt (queryGet u key)

namespace stringGo

/-- Core of `ParseStringSlice` as it appears in `string.go` (the older
snapshot of the string parsers, without option arguments): on an absent
key the value is explicitly the `nil` slice, the default is never
populated. -/
def parseStringSliceData (key : String) (data : List String) :
    QP.Result (Option (List String)) :=
  let r0 : QP.Result (Option (List String)) :=
    { Key := key, Value := none, Default := none, Min := none, Max := none
      Others := none, Empty := false, Contains := true, Error := none }
  match data with
  | [] => { r0 with Value := none, Empty := true, Contains := false }
  | raw :: rest =>
    if raw = "" then { r0 with Value := some [], Empty := true, Contains := true }
    else if rest = [] then { r0 with Value := some (QP.splitComma raw) }
    else { r0 with Value := some (raw :: rest) }

/-- `ParseStringSlice` as it appears in `string.go` (the older snapshot
of the string parsers, without option arguments). -/
def ParseStringSlice (u : QP.Query) (key : String) : QP.Result (Option (List String)) :=
  stringGo.parseStringSliceData key (QP.queryGet u key)

/-- `GetStringSlice` as it appears in `string.go`: returns only the
parsed value (this older snapshot has no validity boolean). -/
def GetStringSlice (u : QP.Query) (key : String) : Option (List String) :=
  (stringGo.ParseStringSlice u key).Value

end stringGo

/-- `GetInt` (`int.go`). -/
def GetInt (u : Query) (key : String) (opt : List Int) : Int × Bool :=
  let data := ParseInt u key opt
  (data.Value, data.Contains && !data.Empty && data.Error.isNone)

/-- `PullInt` (`int.go`). -/
def PullInt (u : Query) (key : String) (opt : List Int) : Option Int :=
  let data := ParseInt u key opt
  if !data.Contains then none else some data.Value

/-- `GetFloat` (`float.go`). -/
def GetFloat (u : Query) (key : String) (opt : List ℚ) : ℚ × Bool :=
  let data := ParseFloat u key opt
  (data.Value, data.Contains && !data.Empty && data.Error.isNone)

/-- `PullFloat` (`float.go`). -/
def PullFloat (u : Query) (key : String) (opt : List ℚ) : Option ℚ :=
  let data := ParseFloat u key opt
  if !data.Contains then none else some data.Value

/-- `GetBool` (`bool.go`). -/
def GetBool (u : Query) (key : String) (opt : List Bool) : Bool × Bool :=
  let data := ParseBool u key opt
  (data.Value, data.Contains && !data.Empty && data.Error.isNone)

/-- `PullBool` (`bool.go`). -/
def PullBool (u : Query) (key : String) (opt : List Bool) : Option Bool :=
  let data := ParseBool u key opt
  if !data.Contains then none else some data.Value

/-- `GetString` (`string.go`). -/
def GetString (u : Query) (key : String) (opt : List String) : String × Bool :=
  let data := ParseString u key opt
  (data.Value, data.Contains && !data.Empty && data.Error.isNone)

/-- `PullString` (unnamed source part with the string parsers). -/
def PullString (u : Query) (key : String) (opt : List String) : Option String :=
  let data := ParseString u key opt
  if !data.Contains then none else some data.Value

/-- `GetIntSlice` (`int.go`). -/
def GetIntSlice (u : Query) (key : String) (opt : List (Option (List Int))) :
    Option (List Int) × Bool :=
  let data := ParseIntSlice u key opt
  (data.Value, data.Contains && !data.Empty && data.Error.isNone)

/-- `PullIntSlice` (`int.go`): `nil` on an absent key, even when a
default is set. -/
def PullIntSlice (u : Query) (key : String) (opt : List (Option (List Int))) :
    Option (List Int) :=
  let data := ParseIntSlice u key opt
  if !data.Contains then none else data.Value

/-- `GetBoolSlice` (`bool.go`). -/
def GetBoolSlice (u : Query) (key : String) (opt : List (Option (List Bool))) :
    Option (List Bool) × Bool :=
  let data := ParseBoolSlice u key opt
  (data.Value, data.Contains && !data.Empty && data.Error.isNone)

/-- `PullBoolSlice` (`bool.go`). -/
def PullBoolSlice (u : Query) (key : String) (opt : List (Option (List Bool))) :
    Option (List Bool) :=
  let data := ParseBoolSlice u key opt
  if !data.Contains then none else data.Value

/-- `GetFloatSlice` (`float.go`). -/
def GetFloatSlice (u : Query) (key : String) (opt : List (Option (List ℚ))) :
    Option (List ℚ) × Bool :=
  let data := ParseFloatSlice u key opt
  (data.Value, data.Contains && !data.Empty && data.Error.isNone)

/-- `PullFloatSlice` (`float.go`). -/
def PullFloatSlice (u : Query) (key : String) (opt : List (Option (List ℚ))) :
    Option (List ℚ) :=
  let data := ParseFloatSlice u key opt
  if !data.Contains then none else data.Value

/-- `GetStringSlice` (unnamed source part): value plus validity flag. -/
def GetStringSlice (u : Query) (key : String) (opt : List (Option (List String))) :
    Option (List String) × Bool :=
  let data := ParseStringSlice u key opt
  (data.Value, data.Contains && !data.Empty && data.Error.isNone)

/-- `PullStringSlice` (unnamed source part). -/
def PullStringSlice (u : Query) (key : String) (opt : List (Option (List String))) :
    Option (List String) :=
  let data := ParseStringSlice u key opt
  if !data.Contains then none else data.Value

/-- `Contains` (the presence probe). -/
def Contains (u : Query) (key : String) : Bool :=
  !(queryGet u key).isEmpty

/-- `Empty` (the emptiness probe): `u.Query().Get(key)` is the first
value, or the empty string when the key is absent. -/
def Empty (u : Query) (key : String) : Bool :=
  ((queryGet u key).headD "") == ""

/-- The two flag invariants of §3 of the spec, as one predicate. -/
def flagInv {α : Type} (r : Result α) : Prop :=
  (r.Contains = true ∨ r.Empty = true) ∧
    (r.Error = none ∨ (r.Contains = true ∧ r.Empty = false))

theorem data_mk (l : List Char) : (String.mk l).data = l := rfl

theorem mk_data (s : String) : String.mk s.data = s := rfl

theorem splitChar_no_sep {sep : Char} :
    ∀ {l : List Char}, sep ∉ l → splitChar sep l = [l] := by
  intro l
  induction l with
  | nil => intro _; rfl
  | cons c rest ih =>
    intro h
    have hc : ¬ c = sep := by
      intro e
      exact h (e ▸ List.mem_cons_self c rest)
    have hr : sep ∉ rest := fun m => h (List.mem_cons_of_mem _ m)
    simp [splitChar, hc, ih hr]

theorem splitChar_append {sep : Char} :
    ∀ {x : List Char}, sep ∉ x → ∀ t,
      splitChar sep (x ++ sep :: t) = x :: splitChar sep t := by
  intro x
  induction x with
  | nil => intro _ t; simp [splitChar]
  | cons c x ih =>
    intro h t
    have hc : ¬ c = sep := by
      intro e
      exact h (e ▸ List.mem_cons_self c x)
    have hx : sep ∉ x := fun m => h (List.mem_cons_of_mem _ m)
    simp [splitChar, hc, ih hx t]

theorem splitChar_joinChar {sep : Char} :
    ∀ (ls : List (List Char)), ls ≠ [] → (∀ x ∈ ls, sep ∉ x) →
      splitChar sep (joinChar sep ls) = ls := by
  intro ls
  induction ls with
  | nil => intro h _; exact absurd rfl h
  | cons x xs ih =>
    intro _ hall
    cases xs with
    | nil => simpa [joinChar] using splitChar_no_sep (hall x (by simp))
    | cons y ys =>
      have hx : sep ∉ x := hall x (by simp)
      have hj : joinChar sep (x :: y :: ys) = x ++ sep :: joinChar sep (y :: ys) := rfl
      rw [hj, splitChar_append hx,
        ih (by simp) (fun z hz => hall z (List.mem_cons_of_mem _ hz))]

theorem splitComma_single {s : String} (h : ',' ∉ s.data) : splitComma s = [s] := by
  unfold splitComma
  rw [splitChar_no_sep h]
  simp [mk_data]

theorem splitComma_commaJoin {lits : List String} (hne : lits ≠ [])
    (hcf : ∀ s ∈ lits, ',' ∉ s.data) : splitComma (commaJoin lits) = lits := by
  unfold splitComma commaJoin
  rw [data_mk, splitChar_joinChar (lits.map String.data)
      (by simpa using hne)
      (by
        intro x hx
        rcases List.mem_map.mp hx with ⟨s, hs, rfl⟩
        exact hcf s hs)]
  simp [List.map_map, Function.comp_def, mk_data]

theorem queryGet_repQ (key : String) (lits : List String) :
    queryGet (repQ key lits) key = lits := by
  induction lits with
  | nil => rfl
  | cons s rest ih =>
    simpa [queryGet, repQ, List.filter_cons] using ih

theorem queryGet_commaQ (key : String) (lits : List String) :
    queryGet (commaQ key lits) key = [commaJoin lits] := by
  simp [queryGet, commaQ, List.filter_cons]

theorem commaJoin_single (s : String) : commaJoin [s] = s := by
  simp [commaJoin, joinChar, mk_data]

theorem commaJoin_cons_ne_empty (x y : String) (ys : List String) :
    commaJoin (x :: y :: ys) ≠ "" := by
  intro h
  have hd : (commaJoin (x :: y :: ys)).data = [] := by rw [h]
  have hj : (commaJoin (x :: y :: ys)).data =
      x.data ++ ',' :: joinChar ',' ((y :: ys).map String.data) := rfl
  rw [hj] at hd
  exact List.append_ne_nil_of_right_ne_nil _ (List.cons_ne_nil _ _) hd

theorem splitChar_ne_nil (sep : Char) : ∀ (l : List Char), splitChar sep l ≠ [] := by
  intro l
  induction l with
  | nil => simp [splitChar]
  | cons c rest ih =>
    by_cases hc : c = sep
    · simp [splitChar, hc]
    · simp only [splitChar, if_neg hc]
      cases h : splitChar sep rest with
      | nil => exact absurd h ih
      | cons g gs => simp

theorem mem_splitChar {sep a : Char} (hne : a ≠ sep) :
    ∀ {l : List Char}, a ∈ l → ∃ g ∈ splitChar sep l, a ∈ g := by
  intro l
  induction l with
  | nil => intro h; exact absurd h (List.not_mem_nil a)
  | cons c rest ih =>
    intro h
    by_cases hc : c = sep
    · have har : a ∈ rest := by
        rcases List.mem_cons.mp h with he | hr
        · exact absurd (he.trans hc) hne
        · exact hr
      rcases ih har with ⟨g, hg, hag⟩
      exact ⟨g, by simp [splitChar, hc, hg], hag⟩
    · cases hs : splitChar sep rest with
      | nil => exact absurd hs (splitChar_ne_nil sep rest)
      | cons g0 gs =>
        rcases List.mem_cons.mp h with he | hr
        · exact ⟨c :: g0, by simp [splitChar, hc, hs], by simp [he]⟩
        · rcases ih hr with ⟨g, hg, hag⟩
          rcases List.mem_cons.mp (hs ▸ hg) with hg0 | hgs
          · exact ⟨c :: g0, by simp [splitChar, hc, hs], by simp [hg0 ▸ hag]⟩
          · exact ⟨g, by simp [splitChar, hc, hs, hgs], hag⟩

theorem parseDigitsAux_none {c : Char} (hc : digitVal c = none) :
    ∀ {l : List Char} (acc : Nat), c ∈ l → parseDigitsAux acc l = none := by
  intro l
  induction l with
  | nil => intro acc h; exact absurd h (List.not_mem_nil c)
  | cons d rest ih =>
    intro acc h
    rcases List.mem_cons.mp h with he | hr
    · simp [parseDigitsAux, ← he, hc]
    · cases hd : digitVal d with
      | none => simp [parseDigitsAux, hd]
      | some k => simp [parseDigitsAux, hd, ih _ hr]

theorem digitVal_comma : digitVal ',' = none := by decide

theorem atoiDigits_comma {ds : List Char} (h : ',' ∈ ds) (sign : Int) :
    atoiDigits sign ds = none := by
  have hne : ¬ ds = [] := by
    intro e
    exact absurd (e ▸ h) (List.not_mem_nil _)
  simp [atoiDigits, hne, parseDigitsAux_none digitVal_comma _ h]

theorem Atoi_comma {s : String} (h : ',' ∈ s.data) : Atoi s = none := by
  cases hl : s.data with
  | nil => rw [hl] at h; exact absurd h (List.not_mem_nil _)
  | cons c rest =>
    rw [hl] at h
    simp only [Atoi, hl]
    split_ifs with h1 h2
    · have : ',' ∈ rest := by
        rcases List.mem_cons.mp h with he | hr
        · exact absurd (he.trans h1) (by decide)
        · exact hr
      exact atoiDigits_comma this 1
    · have : ',' ∈ rest := by
        rcases List.mem_cons.mp h with he | hr
        · exact absurd (he.trans h2) (by decide)
        · exact hr
      exact atoiDigits_comma this (-1)
    · exact atoiDigits_comma h 1

theorem Atoi_empty : Atoi "" = none := rfl

theorem goFloatConv_empty : goFloatConv "" = none := rfl

theorem parseBoolValue_empty : parseBoolValue "" = none := by decide

theorem lowerString_data (s : String) :
    (lowerString s).data = s.data.map lowerChar := rfl

theorem parseBoolValue_comma {s : String} (h : ',' ∈ s.data) :
    parseBoolValue s = none := by
  have hm : ',' ∈ (lowerString s).data := by
    rw [lowerString_data]
    exact List.mem_map.mpr ⟨',', h, by decide⟩
  simp only [parseBoolValue]
  split_ifs with h1 h2
  · rcases h1 with e | e | e | e <;> rw [e] at hm <;> exact absurd hm (by decide)
  · rcases h2 with e | e | e | e <;> rw [e] at hm <;> exact absurd hm (by decide)
  · rfl

theorem parseMantissa_comma {m : List Char} (h : ',' ∈ m) : parseMantissa m = none := by
  rcases mem_splitChar (by decide : ',' ≠ '.') h with ⟨g, hg, hag⟩
  cases hs : splitChar '.' m with
  | nil => simp [parseMantissa, hs]
  | cons ip tl =>
    rw [hs] at hg
    cases tl with
    | nil =>
      have hgi : g = ip := by simpa using hg
      have hip : ¬ ip = [] := by
        intro e
        exact absurd (e ▸ hgi ▸ hag) (List.not_mem_nil _)
      simp [parseMantissa, hs, hip, parseDigitsAux_none digitVal_comma 0 (hgi ▸ hag)]
    | cons fp tl2 =>
      cases tl2 with
      | nil =>
        have hmem : ',' ∈ ip ++ fp := by
          rcases List.mem_cons.mp hg with he | hg2
          · exact List.mem_append_left _ (he ▸ hag)
          · have : g = fp := by simpa using hg2
            exact List.mem_append_right _ (this ▸ hag)
        by_cases hz : ip = [] ∧ fp = []
        · simp [parseMantissa, hs, hz]
        · simp [parseMantissa, hs, hz, parseDigitsAux_none digitVal_comma 0 hmem]
      | cons g2 tl3 => simp [parseMantissa, hs]

theorem parseSignedInt_comma {ex : List Char} (h : ',' ∈ ex) : parseSignedInt ex = none := by
  cases hl : ex with
  | nil => rw [hl] at h; exact absurd h (List.not_mem_nil _)
  | cons c rest =>
    rw [hl] at h
    simp only [parseSignedInt]
    by_cases h1 : c = '+'
    · have hr : ',' ∈ rest := by
        rcases List.mem_cons.mp h with he | hr
        · exact absurd (he.trans h1) (by decide)
        · exact hr
      by_cases h2 : rest = []
      · simp [h1, h2]
      · simp [h1, h2, parseDigitsAux_none digitVal_comma 0 hr]
    · by_cases h2 : c = '-'
      · have hr : ',' ∈ rest := by
          rcases List.mem_cons.mp h with he | hr
          · exact absurd (he.trans h2) (by decide)
          · exact hr
        by_cases h3 : rest = []
        · simp [h1, h2, h3]
        · simp [h1, h2, h3, parseDigitsAux_none digitVal_comma 0 hr]
      · simp [h1, h2, parseDigitsAux_none digitVal_comma 0 h]

theorem goFloatConv_comma {s : String} (h : ',' ∈ s.data) : goFloatConv s = none := by
  have hm : ',' ∈ s.data.map lowerChar := List.mem_map.mpr ⟨',', h, by decide⟩
  cases hl : s.data.map lowerChar with
  | nil => rw [hl] at hm; exact absurd hm (List.not_mem_nil _)
  | cons c rest =>
    rw [hl] at hm
    simp only [goFloatConv, hl]
    have hbody : ',' ∈ (if c = '+' ∨ c = '-' then rest else c :: rest) := by
      split_ifs with hsgn
      · rcases List.mem_cons.mp hm with he | hr
        · rcases hsgn with e | e <;> exact absurd (he.trans e) (by decide)
        · exact hr
      · exact hm
    rcases mem_splitChar (by decide : ',' ≠ 'e') hbody with ⟨g, hg, hag⟩
    cases hs : splitChar 'e' (if c = '+' ∨ c = '-' then rest else c :: rest) with
    | nil => simp [hs]
    | cons m tl =>
      rw [hs] at hg
      cases tl with
      | nil =>
        have hgm : g = m := by simpa using hg
        simp [hs, parseMantissa_comma (hgm ▸ hag)]
      | cons ex tl2 =>
        cases tl2 with
        | nil =>
          rcases List.mem_cons.mp hg with he | hg2
          · simp [hs, parseMantissa_comma (he ▸ hag)]
          · have hgex : g = ex := by simpa using hg2
            simp [hs, parseSignedInt_comma (hgex ▸ hag)]
        | cons g2 tl3 => simp [hs]

theorem convList_error {β : Type} (conv : String → Option β) :
    ∀ {l : List String} {s : String}, s ∈ l → conv s = none →
      ∃ e, convList conv l = Except.error e := by
  intro l
  induction l with
  | nil => intro s h _; exact absurd h (List.not_mem_nil s)
  | cons a t ih =>
    intro s h hc
    cases hca : conv a with
    | none => exact ⟨a, by simp [convList, hca]⟩
    | some v =>
      have hst : s ∈ t := by
        rcases List.mem_cons.mp h with he | hr
        · rw [he] at hc
          rw [hc] at hca
          exact absurd hca (by simp)
        · exact hr
      rcases ih hst hc with ⟨e, he⟩
      exact ⟨e, by simp [convList, hca, he]⟩

theorem parseNumData_fields {α : Type} [LinearOrder α] [DecidableEq α]
    (zero : α) (conv : String → Option α) (toStr : α → String) (key : String)
    (a b : α) (rest : List α) (data : List String) :
    (parseNumData zero conv toStr key (a :: b :: rest) data).Min = (if a > b then b else a) ∧
    (parseNumData zero conv toStr key (a :: b :: rest) data).Max = (if a > b then a else b) ∧
    (parseNumData zero conv toStr key (a :: b :: rest) data).Default = a ∧
    (parseNumData zero conv toStr key (a :: b :: rest) data).Others =
      (if rest = [] then none else some rest) := by
  simp only [parseNumData]
  cases data with
  | nil => simp
  | cons raw t =>
    by_cases hr : raw = ""
    · simp [hr]
    · simp only [if_neg hr]
      cases hc : conv raw with
      | none => simp
      | some v =>
        simp only []
        split_ifs <;> simp

theorem parseNumData_validate {α : Type} [LinearOrder α] [DecidableEq α]
    (zero : α) (conv : String → Option α) (toStr : α → String) (key : String)
    (a b : α) (rest : List α) (raw : String) (t : List String) (v : α)
    (hraw : ¬ raw = "") (hconv : conv raw = some v) :
    ((if a > b then b else a) ≤ v ∧ v ≤ (if a > b then a else b) →
      (parseNumData zero conv toStr key (a :: b :: rest) (raw :: t)).Value = v ∧
      (parseNumData zero conv toStr key (a :: b :: rest) (raw :: t)).Error = none) ∧
    (¬ ((if a > b then b else a) ≤ v ∧ v ≤ (if a > b then a else b)) → rest ≠ [] → v ∈ rest →
      (parseNumData zero conv toStr key (a :: b :: rest) (raw :: t)).Value = v ∧
      (parseNumData zero conv toStr key (a :: b :: rest) (raw :: t)).Error = none) ∧
    (¬ ((if a > b then b else a) ≤ v ∧ v ≤ (if a > b then a else b)) →
      ¬ (rest ≠ [] ∧ v ∈ rest) →
      (parseNumData zero conv toStr key (a :: b :: rest) (raw :: t)).Error ≠ none ∧
      (parseNumData zero conv toStr key (a :: b :: rest) (raw :: t)).Value = a) := by
  simp only [parseNumData, if_neg hraw, hconv]
  by_cases hrange : (if a > b then b else a) ≤ v ∧ v ≤ (if a > b then a else b)
  · simp [hrange]
  · refine ⟨fun h => absurd h hrange, ?_, ?_⟩
    · intro _ hrest hmem
      have hoth : inOthers (if rest = [] then none else some rest) v = true := by
        simp [inOthers, if_neg hrest, hmem]
      simp [hrange, hoth]
    · intro _ hno
      have hlen : ¬ (rest.length + 1 + 1 < 2) := by omega
      by_cases hrest : rest = []
      · simp [hrange, inOthers, hrest, hlen]
      · have hnm : v ∉ rest := fun hm => hno ⟨hrest, hm⟩
        have hoth : inOthers (if rest = [] then none else some rest) v = false := by
          simp [inOthers, if_neg hrest, hnm]
        simp [hrange, hoth, hlen]

theorem parseNumData_head {α : Type} [LinearOrder α] [DecidableEq α]
    (zero : α) (conv : String → Option α) (toStr : α → String) (key : String)
    (opt : List α) {data data' : List String} (h : data.head? = data'.head?) :
    parseNumData zero conv toStr key opt data = parseNumData zero conv toStr key opt data' := by
  cases data with
  | nil =>
    cases data' with
    | nil => rfl
    | cons a t => simp at h
  | cons a t =>
    cases data' with
    | nil => simp at h
    | cons a' t' =>
      have he : a = a' := by simpa using h
      subst he
      rfl

theorem flagInv_parseNumData {α : Type} [LinearOrder α] [DecidableEq α]
    (zero : α) (conv : String → Option α) (toStr : α → String) (key : String)
    (opt : List α) (data : List String) :
    flagInv (parseNumData zero conv toStr key opt data) := by
  have hbody : ∀ (r1 : Result α), r1.Error = none → r1.Contains = true → r1.Empty = false →
      flagInv (match data with
        | [] => { r1 with Empty := true, Contains := false }
        | raw :: _ =>
          if raw = "" then { r1 with Empty := true, Contains := true }
          else
            match conv raw with
            | none => { r1 with Error := some ("invalid value for key " ++ key ++ ": " ++ raw) }
            | some value =>
              if opt.length < 2 then { r1 with Value := value }
              else if r1.Min ≤ value ∧ value ≤ r1.Max then { r1 with Value := value }
              else if inOthers r1.Others value then { r1 with Value := value }
              else { r1 with Error := some ("value out of range for key " ++ key ++ ": " ++ toStr value) }) := by
    intro r1 he hc hm
    cases data with
    | nil => simp [flagInv, he]
    | cons raw t =>
      by_cases hr : raw = ""
      · simp [flagInv, hr, hc, he]
      · simp only [if_neg hr]
        cases hcv : conv raw with
        | none => simp [flagInv, hc, hm]
        | some v =>
          simp only []
          split_ifs <;> simp [flagInv, he, hc, hm]
  simp only [parseNumData]
  cases opt with
  | nil => exact hbody _ rfl rfl rfl
  | cons d t =>
    cases t with
    | nil => exact hbody _ rfl rfl rfl
    | cons b rest => exact hbody _ rfl rfl rfl


theorem parseStringData_validate (key : String) (d0 d1 : String) (ds : List String)
    (raw : String) (t : List String) (hraw : ¬ raw = "") :
    (parseStringData key (d0 :: d1 :: ds) (raw :: t)).Others = some (d0 :: d1 :: ds) ∧
    (raw ∈ d0 :: d1 :: ds →
      (parseStringData key (d0 :: d1 :: ds) (raw :: t)).Value = raw ∧
      (parseStringData key (d0 :: d1 :: ds) (raw :: t)).Error = none) ∧
    (raw ∉ d0 :: d1 :: ds →
      (parseStringData key (d0 :: d1 :: ds) (raw :: t)).Error ≠ none ∧
      (parseStringData key (d0 :: d1 :: ds) (raw :: t)).Value = d0) := by
  have hlen : ¬ ((d0 :: d1 :: ds).length < 2) := by simp
  simp only [parseStringData, if_neg hraw, if_neg hlen]
  by_cases hmem : raw ∈ d0 :: d1 :: ds
  · have hoth : inOthers (some (d0 :: d1 :: ds)) raw = true := by simp [inOthers, hmem]
    simp [hoth, hmem]
  · have hoth : inOthers (some (d0 :: d1 :: ds)) raw = false := by simp [inOthers, hmem]
    simp [hoth, hmem]

theorem parseStringData_head (key : String) (opt : List String)
    {data data' : List String} (h : data.head? = data'.head?) :
    parseStringData key opt data = parseStringData key opt data' := by
  cases data with
  | nil =>
    cases data' with
    | nil => rfl
    | cons a t => simp at h
  | cons a t =>
    cases data' with
    | nil => simp at h
    | cons a' t' =>
      have he : a = a' := by simpa using h
      subst he
      rfl

theorem flagInv_parseStringData (key : String) (opt : List String) (data : List String) :
    flagInv (parseStringData key opt data) := by
  have hbody : ∀ (r1 : Result String), r1.Error = none → r1.Contains = true → r1.Empty = false →
      flagInv (match data with
        | [] => { r1 with Empty := true, Contains := false }
        | raw :: _ =>
          if raw = "" then { r1 with Empty := true, Contains := true }
          else
            if opt.length < 2 then { r1 with Value := raw }
            else if inOthers r1.Others raw then { r1 with Value := raw }
            else { r1 with Error := some ("value out of range for key " ++ key ++ ": " ++ raw) }) := by
    intro r1 he hc hm
    cases data with
    | nil => simp [flagInv, he]
    | cons raw t =>
      by_cases hr : raw = ""
      · simp [flagInv, hr, hc, he]
      · simp only [if_neg hr]
        split_ifs <;> simp [flagInv, he, hc, hm]
  simp only [parseStringData]
  cases opt with
  | nil => exact hbody _ rfl rfl rfl
  | cons d t =>
    cases t with
    | nil => exact hbody _ rfl rfl rfl
    | cons d1 ds => exact hbody _ rfl rfl rfl

theorem parseBoolData_head (key : String) (opt : List Bool)
    {data data' : List String} (h : data.head? = data'.head?) :
    parseBoolData key opt data = parseBoolData key opt data' := by
  cases data with
  | nil =>
    cases data' with
    | nil => rfl
    | cons a t => simp at h
  | cons a t =>
    cases data' with
    | nil => simp at h
    | cons a' t' =>
      have he : a = a' := by simpa using h
      subst he
      rfl

theorem parseBoolData_take_one (key : String) (opt : List Bool) (data : List String) :
    parseBoolData key opt data = parseBoolData key (opt.take 1) data := by
  cases opt with
  | nil => rfl
  | cons d t => rfl

theorem parseBoolData_fields (key : String) (opt : List Bool) (data : List String) :
    (parseBoolData key opt data).Others = none ∧
    (parseBoolData key opt data).Min = false ∧
    (parseBoolData key opt data).Max = false := by
  have hbody : ∀ (r1 : Result Bool), r1.Others = none → r1.Min = false → r1.Max = false →
      (let r := (match data with
        | [] => { r1 with Empty := true, Contains := false }
        | raw :: _ =>
          if raw = "" then { r1 with Empty := true, Contains := true }
          else
            match parseBoolValue (lowerString raw) with
            | none => { r1 with Error := some ("invalid value for key " ++ key ++ ": " ++ raw) }
            | some value => { r1 with Value := value })
       r.Others = none ∧ r.Min = false ∧ r.Max = false) := by
    intro r1 ho hmn hmx
    cases data with
    | nil => simp [ho, hmn, hmx]
    | cons raw t =>
      by_cases hr : raw = ""
      · simp [hr, ho, hmn, hmx]
      · simp only [if_neg hr]
        cases hv : parseBoolValue (lowerString raw) with
        | none => simp [ho, hmn, hmx]
        | some v => simp [ho, hmn, hmx]
  simp only [parseBoolData]
  cases opt with
  | nil => exact hbody _ rfl rfl rfl
  | cons d t => exact hbody _ rfl rfl rfl

theorem flagInv_parseBoolData (key : String) (opt : List Bool) (data : List String) :
    flagInv (parseBoolData key opt data) := by
  have hbody : ∀ (r1 : Result Bool), r1.Error = none → r1.Contains = true → r1.Empty = false →
      flagInv (match data with
        | [] => { r1 with Empty := true, Contains := false }
        | raw :: _ =>
          if raw = "" then { r1 with Empty := true, Contains := true }
          else
            match parseBoolValue (lowerString raw) with
            | none => { r1 with Error := some ("invalid value for key " ++ key ++ ": " ++ raw) }
            | some value => { r1 with Value := value }) := by
    intro r1 he hc hm
    cases data with
    | nil => simp [flagInv, he]
    | cons raw t =>
      by_cases hr : raw = ""
      · simp [flagInv, hr, hc, he]
      · simp only [if_neg hr]
        cases hv : parseBoolValue (lowerString raw) with
        | none => simp [flagInv, hc, hm]
        | some v => simp [flagInv, he, hc, hm]
  simp only [parseBoolData]
  cases opt with
  | nil => exact hbody _ rfl rfl rfl
  | cons d t => exact hbody _ rfl rfl rfl


theorem flagInv_parseSliceData {β : Type} (conv : String → Option β) (key : String)
    (opt : List (Option (List β))) (data : List String) :
    flagInv (parseSliceData conv key opt data) := by
  have hbody : ∀ (r2 : Result (Option (List β))),
      r2.Error = none → r2.Contains = true → r2.Empty = false →
      flagInv (match data with
        | [] => { r2 with Empty := true, Contains := false }
        | raw :: rest =>
          if raw = "" then { r2 with Empty := true, Contains := true }
          else
            match convList conv (if rest = [] then splitComma raw else raw :: rest) with
            | .error s =>
              { r2 with Error := some ("invalid value for key " ++ key ++ ": " ++ s)
                        Value := some [] }
            | .ok vs => { r2 with Value := some vs }) := by
    intro r2 he hc hm
    cases data with
    | nil => simp [flagInv, he]
    | cons raw rest =>
      by_cases hr : raw = ""
      · simp [flagInv, hr, hc, he]
      · simp only [if_neg hr]
        cases hcv : convList conv (if rest = [] then splitComma raw else raw :: rest) with
        | error e => simp [flagInv, hc, hm]
        | ok vs => simp [flagInv, he, hc, hm]
  simp only [parseSliceData]
  cases opt with
  | nil => exact hbody _ rfl rfl rfl
  | cons d t => exact hbody _ rfl rfl rfl

theorem parseSliceData_value_some {β : Type} (conv : String → Option β) (key : String)
    (opt : List (Option (List β))) (data : List String)
    (h : opt.headD (some []) ≠ none) :
    (parseSliceData conv key opt data).Contains = true →
      (parseSliceData conv key opt data).Value ≠ none := by
  simp only [parseSliceData]
  rcases opt with _ | ⟨d, t⟩
  · cases data with
    | nil => intro hcont; simp at hcont
    | cons raw rest =>
      by_cases hr : raw = ""
      · subst hr; simp
      · simp only [if_neg hr]
        cases hcv : convList conv (if rest = [] then splitComma raw else raw :: rest) with
        | error e => intro _; simp
        | ok vs => intro _; simp
  · have hd : d ≠ none := by simpa using h
    cases data with
    | nil => intro hcont; simp at hcont
    | cons raw rest =>
      by_cases hr : raw = ""
      · subst hr; simp [hd]
      · simp only [if_neg hr]
        cases hcv : convList conv (if rest = [] then splitComma raw else raw :: rest) with
        | error e => intro _; simp
        | ok vs => intro _; simp

theorem parseSliceData_fail {β : Type} (conv : String → Option β) (key : String)
    (opt : List (Option (List β))) {raw : String} {rest : List String}
    (hraw : ¬ raw = "") {s : String}
    (hs : s ∈ (if rest = [] then splitComma raw else raw :: rest))
    (hc : conv s = none) :
    (parseSliceData conv key opt (raw :: rest)).Error ≠ none ∧
    (parseSliceData conv key opt (raw :: rest)).Value = some [] := by
  rcases convList_error conv hs hc with ⟨e, he⟩
  simp only [parseSliceData]
  cases opt with
  | nil => simp [hraw, he]
  | cons d t => simp [hraw, he]

theorem parseSliceData_dual {β : Type} (conv : String → Option β) (key : String)
    (opt : List (Option (List β))) {lits : List String} (hne : lits ≠ [])
    (h0 : ∀ s ∈ lits, ¬ s = "") (hcf : ∀ s ∈ lits, ',' ∉ s.data) :
    parseSliceData conv key opt (queryGet (commaQ key lits) key) =
      parseSliceData conv key opt (queryGet (repQ key lits) key) := by
  rw [queryGet_commaQ, queryGet_repQ]
  rcases lits with _ | ⟨l0, ls⟩
  · exact absurd rfl hne
  · rcases ls with _ | ⟨l1, ls2⟩
    · rw [commaJoin_single]
    · have hcj : ¬ commaJoin (l0 :: l1 :: ls2) = "" := commaJoin_cons_ne_empty _ _ _
      have hl0 : ¬ l0 = "" := h0 l0 (by simp)
      have hsplit : splitComma (commaJoin (l0 :: l1 :: ls2)) = l0 :: l1 :: ls2 :=
        splitComma_commaJoin (by simp) hcf
      simp only [parseSliceData]
      simp [hcj, hl0, hsplit]

theorem flagInv_parseStringSliceData (key : String)
    (opt : List (Option (List String))) (data : List String) :
    flagInv (parseStringSliceData key opt data) := by
  have hbody : ∀ (r2 : Result (Option (List String))),
      r2.Error = none → r2.Contains = true → r2.Empty = false →
      flagInv (match data with
        | [] => { r2 with Empty := true, Contains := false }
        | raw :: rest =>
          if raw = "" then { r2 with Empty := true, Contains := true }
          else if rest = [] then { r2 with Value := some (splitComma raw) }
          else { r2 with Value := some (raw :: rest) }) := by
    intro r2 he hc hm
    cases data with
    | nil => simp [flagInv, he]
    | cons raw rest =>
      by_cases hr : raw = ""
      · simp [flagInv, hr, hc, he]
      · simp only [if_neg hr]
        split_ifs <;> simp [flagInv, he, hc, hm]
  simp only [parseStringSliceData]
  cases opt with
  | nil => exact hbody _ rfl rfl rfl
  | cons d t => exact hbody _ rfl rfl rfl

theorem parseStringSliceData_value_some (key : String)
    (opt : List (Option (List String))) (data : List String)
    (h : opt.headD (some []) ≠ none) :
    (parseStringSliceData key opt data).Contains = true →
      (parseStringSliceData key opt data).Value ≠ none := by
  simp only [parseStringSliceData]
  rcases opt with _ | ⟨d, t⟩
  · cases data with
    | nil => intro hcont; simp at hcont
    | cons raw rest =>
      by_cases hr : raw = ""
      · subst hr; simp
      · simp only [if_neg hr]
        split_ifs <;> intro _ <;> simp
  · have hd : d ≠ none := by simpa using h
    cases data with
    | nil => intro hcont; simp at hcont
    | cons raw rest =>
      by_cases hr : raw = ""
      · subst hr; simp [hd]
      · simp only [if_neg hr]
        split_ifs <;> intro _ <;> simp

theorem parseStringSliceData_dual (key : String)
    (opt : List (Option (List String))) {lits : List String} (hne : lits ≠ [])
    (h0 : ∀ s ∈ lits, ¬ s = "") (hcf : ∀ s ∈ lits, ',' ∉ s.data) :
    parseStringSliceData key opt (queryGet (commaQ key lits) key) =
      parseStringSliceData key opt (queryGet (repQ key lits) key) := by
  rw [queryGet_commaQ, queryGet_repQ]
  rcases lits with _ | ⟨l0, ls⟩
  · exact absurd rfl hne
  · rcases ls with _ | ⟨l1, ls2⟩
    · rw [commaJoin_single]
    · have hcj : ¬ commaJoin (l0 :: l1 :: ls2) = "" := commaJoin_cons_ne_empty _ _ _
      have hl0 : ¬ l0 = "" := h0 l0 (by simp)
      have hsplit : splitComma (commaJoin (l0 :: l1 :: ls2)) = l0 :: l1 :: ls2 :=
        splitComma_commaJoin (by simp) hcf
      simp only [parseStringSliceData]
      simp [hcj, hl0, hsplit]

theorem stringGo_parseStringSliceData_dual (key : String)
    {lits : List String} (hne : lits ≠ [])
    (h0 : ∀ s ∈ lits, ¬ s = "") (hcf : ∀ s ∈ lits, ',' ∉ s.data) :
    stringGo.parseStringSliceData key (queryGet (commaQ key lits) key) =
      stringGo.parseStringSliceData key (queryGet (repQ key lits) key) := by
  rw [queryGet_commaQ, queryGet_repQ]
  rcases lits with _ | ⟨l0, ls⟩
  · exact absurd rfl hne
  · rcases ls with _ | ⟨l1, ls2⟩
    · rw [commaJoin_single]
    · have hcj : ¬ commaJoin (l0 :: l1 :: ls2) = "" := commaJoin_cons_ne_empty _ _ _
      have hl0 : ¬ l0 = "" := h0 l0 (by simp)
      have hsplit : splitComma (commaJoin (l0 :: l1 :: ls2)) = l0 :: l1 :: ls2 :=
        splitComma_commaJoin (by simp) hcf
      simp only [stringGo.parseStringSliceData]
      simp [hcj, hl0, hsplit]

theorem flagInv_stringGo_parseStringSliceData (key : String) (data : List String) :
    flagInv (stringGo.parseStringSliceData key data) := by
  simp only [stringGo.parseStringSliceData]
  cases data with
  | nil => simp [flagInv]
  | cons raw rest =>
    by_cases hr : raw = ""
    · simp [flagInv, hr]
    · simp only [if_neg hr]
      split_ifs <;> simp [flagInv]

theorem stringGo_parseStringSliceData_value_some (key : String) (data : List String) :
    (stringGo.parseStringSliceData key data).Contains = true →
      (stringGo.parseStringSliceData key data).Value ≠ none := by
  simp only [stringGo.parseStringSliceData]
  cases data with
  | nil => intro hcont; simp at hcont
  | cons raw rest =>
    by_cases hr : raw = ""
    · simp [hr]
    · simp only [if_neg hr]
      split_ifs <;> intro _ <;> simp


theorem Atoi_isSome_props {s : String} (h : (Atoi s).isSome) : ¬ s = "" ∧ ',' ∉ s.data := by
  constructor
  · intro e
    subst e
    rw [Atoi_empty] at h
    simp at h
  · intro hm
    rw [Atoi_comma hm] at h
    simp at h

theorem goFloatConv_isSome_props {s : String} (h : (goFloatConv s).isSome) :
    ¬ s = "" ∧ ',' ∉ s.data := by
  constructor
  · intro e
    subst e
    rw [goFloatConv_empty] at h
    simp at h
  · intro hm
    rw [goFloatConv_comma hm] at h
    simp at h

theorem parseBoolValue_isSome_props {s : String} (h : (parseBoolValue s).isSome) :
    ¬ s = "" ∧ ',' ∉ s.data := by
  constructor
  · intro e
    subst e
    rw [parseBoolValue_empty] at h
    simp at h
  · intro hm
    rw [parseBoolValue_comma hm] at h
    simp at h

theorem parseStringData_others (key d0 d1 : String) (ds : List String)
    (data : List String) :
    (parseStringData key (d0 :: d1 :: ds) data).Others = some (d0 :: d1 :: ds) := by
  simp only [parseStringData]
  cases data with
  | nil => simp
  | cons raw t =>
    by_cases hr : raw = ""
    · simp [hr]
    · simp only [if_neg hr]
      split_ifs <;> simp


theorem parseNumData_claimC1 {α : Type} [LinearOrder α] [DecidableEq α]
    (zero : α) (conv : String → Option α) (toStr : α → String) (key : String)
    (a b : α) (rest : List α) (raw : String) (t : List String) (v : α)
    (hraw : ¬ raw = "") (hconv : conv raw = some v) :
    (((parseNumData zero conv toStr key (a :: b :: rest) (raw :: t)).Min ≤ v ∧
        v ≤ (parseNumData zero conv toStr key (a :: b :: rest) (raw :: t)).Max) →
      (parseNumData zero conv toStr key (a :: b :: rest) (raw :: t)).Value = v ∧
      (parseNumData zero conv toStr key (a :: b :: rest) (raw :: t)).Error = none) ∧
    (¬ ((parseNumData zero conv toStr key (a :: b :: rest) (raw :: t)).Min ≤ v ∧
        v ≤ (parseNumData zero conv toStr key (a :: b :: rest) (raw :: t)).Max) →
      rest ≠ [] → v ∈ rest →
      (parseNumData zero conv toStr key (a :: b :: rest) (raw :: t)).Value = v ∧
      (parseNumData zero conv toStr key (a :: b :: rest) (raw :: t)).Error = none) ∧
    (¬ ((parseNumData zero conv toStr key (a :: b :: rest) (raw :: t)).Min ≤ v ∧
        v ≤ (parseNumData zero conv toStr key (a :: b :: rest) (raw :: t)).Max) →
      ¬ (rest ≠ [] ∧ v ∈ rest) →
      (parseNumData zero conv toStr key (a :: b :: rest) (raw :: t)).Error ≠ none ∧
      (parseNumData zero conv toStr key (a :: b :: rest) (raw :: t)).Value = a) := by
  obtain ⟨hMin, hMax, hDef, hOth⟩ := parseNumData_fields zero conv toStr key a b rest (raw :: t)
  rw [hMin, hMax]
  exact parseNumData_validate zero conv toStr key a b rest raw t v hraw hconv


/-- C1: for every numeric Parse call (`ParseInt`, `ParseFloat`) with at
least two options, on a key present with a non-empty first raw value
that converts to a number `v`: if `min ≤ v ≤ max` the value is `v` with
no error; otherwise if additional valid values (the options beyond the
first two) were supplied and contain `v` the value is `v` with no
error; otherwise the error is set and the value stays at the default
`options[0]`.  In particular with range `[20,20]` and others
`[30,50,70]`, input `70` is accepted and `33` is rejected with value
`20`. -/
theorem claim_C1 :
    (∀ (u : Query) (key : String) (a b : Int) (rest : List Int)
        (raw : String) (t : List String) (v : Int),
      queryGet u key = raw :: t → raw ≠ "" → Atoi raw = some v →
      (((ParseInt u key (a :: b :: rest)).Min ≤ v ∧
          v ≤ (ParseInt u key (a :: b :: rest)).Max) →
        (ParseInt u key (a :: b :: rest)).Value = v ∧
        (ParseInt u key (a :: b :: rest)).Error = none) ∧
      (¬ ((ParseInt u key (a :: b :: rest)).Min ≤ v ∧
          v ≤ (ParseInt u key (a :: b :: rest)).Max) →
        rest ≠ [] → v ∈ rest →
        (ParseInt u key (a :: b :: rest)).Value = v ∧
        (ParseInt u key (a :: b :: rest)).Error = none) ∧
      (¬ ((ParseInt u key (a :: b :: rest)).Min ≤ v ∧
          v ≤ (ParseInt u key (a :: b :: rest)).Max) →
        ¬ (rest ≠ [] ∧ v ∈ rest) →
        (ParseInt u key (a :: b :: rest)).Error ≠ none ∧
        (ParseInt u key (a :: b :: rest)).Value = a)) ∧
    (∀ (u : Query) (key : String) (a b : ℚ) (rest : List ℚ)
        (raw : String) (t : List String) (v : ℚ),
      queryGet u key = raw :: t → raw ≠ "" → goFloatConv raw = some v →
      (((ParseFloat u key (a :: b :: rest)).Min ≤ v ∧
          v ≤ (ParseFloat u key (a :: b :: rest)).Max) →
        (ParseFloat u key (a :: b :: rest)).Value = v ∧
        (ParseFloat u key (a :: b :: rest)).Error = none) ∧
      (¬ ((ParseFloat u key (a :: b :: rest)).Min ≤ v ∧
          v ≤ (ParseFloat u key (a :: b :: rest)).Max) →
        rest ≠ [] → v ∈ rest →
        (ParseFloat u key (a :: b :: rest)).Value = v ∧
        (ParseFloat u key (a :: b :: rest)).Error = none) ∧
      (¬ ((ParseFloat u key (a :: b :: rest)).Min ≤ v ∧
          v ≤ (ParseFloat u key (a :: b :: rest)).Max) →
        ¬ (rest ≠ [] ∧ v ∈ rest) →
        (ParseFloat u key (a :: b :: rest)).Error ≠ none ∧
        (ParseFloat u key (a :: b :: rest)).Value = a)) ∧
    (ParseInt [("k", "70")] "k" [20, 20, 30, 50, 70]).Value = 70 ∧
    (ParseInt [("k", "70")] "k" [20, 20, 30, 50, 70]).Error = none ∧
    (ParseInt [("k", "33")] "k" [20, 20, 30, 50, 70]).Value = 20 ∧
    (ParseInt [("k", "33")] "k" [20, 20, 30, 50, 70]).Error ≠ none := by
  refine ⟨?_, ?_, by decide, by decide, by decide, by decide⟩
  · intro u key a b rest raw t v hdata hraw hconv
    have he : ParseInt u key (a :: b :: rest) =
        parseNumData 0 Atoi (fun x => toString x) key (a :: b :: rest) (raw :: t) := by
      rw [show ParseInt u key (a :: b :: rest) =
          parseNumData 0 Atoi (fun x => toString x) key (a :: b :: rest) (queryGet u key)
          from rfl, hdata]
    rw [he]
    exact parseNumData_claimC1 0 Atoi (fun x => toString x) key a b rest raw t v hraw hconv
  · intro u key a b rest raw t v hdata hraw hconv
    have he : ParseFloat u key (a :: b :: rest) =
        parseNumData 0 goFloatConv (fun x => toString x) key (a :: b :: rest) (raw :: t) := by
      rw [show ParseFloat u key (a :: b :: rest) =
          parseNumData 0 goFloatConv (fun x => toString x) key (a :: b :: rest) (queryGet u key)
          from rfl, hdata]
    rw [he]
    exact parseNumData_claimC1 0 goFloatConv (fun x => toString x) key a b rest raw t v hraw hconv

/-- Witness for C1: both hypothesis branches discharged at concrete
inputs — `?k=70` with options `20 20 30 50 70` is accepted through the
allow-list. -/
theorem claim_C1_witness :
    (ParseInt [("k", "70")] "k" [20, 20, 30, 50, 70]).Value = 70 ∧
    (ParseInt [("k", "70")] "k" [20, 20, 30, 50, 70]).Error = none :=
  (claim_C1.1 [("k", "70")] "k" 20 20 [30, 50, 70] "70" [] 70 (by decide) (by decide)
      (by decide)).2.1 (by decide) (by decide) (by decide)

/-- C2: for every numeric Parse call with two or more options where
`options[0] > options[1]`, the result has `Min = options[1]`,
`Max = options[0]` (the sorted pair) while `Default` equals
`options[0]` verbatim; e.g. `ParseInt(q,k,30,18)` yields min 18,
max 30, default 30. -/
theorem claim_C2 :
    (∀ (u : Query) (key : String) (a b : Int) (rest : List Int), b < a →
      (ParseInt u key (a :: b :: rest)).Min = b ∧
      (ParseInt u key (a :: b :: rest)).Max = a ∧
      (ParseInt u key (a :: b :: rest)).Default = a) ∧
    (∀ (u : Query) (key : String) (a b : ℚ) (rest : List ℚ), b < a →
      (ParseFloat u key (a :: b :: rest)).Min = b ∧
      (ParseFloat u key (a :: b :: rest)).Max = a ∧
      (ParseFloat u key (a :: b :: rest)).Default = a) ∧
    (ParseInt [] "age" [30, 18]).Min = 18 ∧
    (ParseInt [] "age" [30, 18]).Max = 30 ∧
    (ParseInt [] "age" [30, 18]).Default = 30 := by
  refine ⟨?_, ?_, by decide, by decide, by decide⟩
  · intro u key a b rest hba
    obtain ⟨hMin, hMax, hDef, hOth⟩ :=
      parseNumData_fields 0 Atoi (fun x => toString x) key a b rest (queryGet u key)
    have h1 : (ParseInt u key (a :: b :: rest)).Min = if a > b then b else a := hMin
    have h2 : (ParseInt u key (a :: b :: rest)).Max = if a > b then a else b := hMax
    have h3 : (ParseInt u key (a :: b :: rest)).Default = a := hDef
    exact ⟨by rw [h1, if_pos hba], by rw [h2, if_pos hba], h3⟩
  · intro u key a b rest hba
    obtain ⟨hMin, hMax, hDef, hOth⟩ :=
      parseNumData_fields 0 goFloatConv (fun x => toString x) key a b rest (queryGet u key)
    have h1 : (ParseFloat u key (a :: b :: rest)).Min = if a > b then b else a := hMin
    have h2 : (ParseFloat u key (a :: b :: rest)).Max = if a > b then a else b := hMax
    have h3 : (ParseFloat u key (a :: b :: rest)).Default = a := hDef
    exact ⟨by rw [h1, if_pos hba], by rw [h2, if_pos hba], h3⟩

/-- Witness for C2: the inverted range `(30, 18)` at a concrete call. -/
theorem claim_C2_witness :
    (18 : Int) < 30 ∧
    (ParseInt [] "age" [30, 18]).Min = 18 ∧
    (ParseInt [] "age" [30, 18]).Max = 30 ∧
    (ParseInt [] "age" [30, 18]).Default = 30 :=
  ⟨by decide, (claim_C2.1 [] "age" 30 18 [] (by decide)).1,
    (claim_C2.1 [] "age" 30 18 [] (by decide)).2.1,
    (claim_C2.1 [] "age" 30 18 [] (by decide)).2.2⟩

/-- C10: for every scalar Parse function, only the first raw value of
the key determines the result — two queries whose value lists for the
key have the same head yield identical results — and `?k=&k=5` with
default 7 is classified empty with the default value. -/
theorem claim_C10 :
    (∀ (u u' : Query) (key : String) (opt : List Int),
      (queryGet u key).head? = (queryGet u' key).head? →
      ParseInt u key opt = ParseInt u' key opt) ∧
    (∀ (u u' : Query) (key : String) (opt : List ℚ),
      (queryGet u key).head? = (queryGet u' key).head? →
      ParseFloat u key opt = ParseFloat u' key opt) ∧
    (∀ (u u' : Query) (key : String) (opt : List String),
      (queryGet u key).head? = (queryGet u' key).head? →
      ParseString u key opt = ParseString u' key opt) ∧
    (∀ (u u' : Query) (key : String) (opt : List Bool),
      (queryGet u key).head? = (queryGet u' key).head? →
      ParseBool u key opt = ParseBool u' key opt) ∧
    (ParseInt [("k", ""), ("k", "5")] "k" [7]).Empty = true ∧
    (ParseInt [("k", ""), ("k", "5")] "k" [7]).Contains = true ∧
    (ParseInt [("k", ""), ("k", "5")] "k" [7]).Value = 7 ∧
    (ParseInt [("k", ""), ("k", "5")] "k" [7]).Error = none := by
  refine ⟨?_, ?_, ?_, ?_, by decide, by decide, by decide, by decide⟩
  · exact fun u u' key opt h => parseNumData_head 0 Atoi (fun x => toString x) key opt h
  · exact fun u u' key opt h => parseNumData_head 0 goFloatConv (fun x => toString x) key opt h
  · exact fun u u' key opt h => parseStringData_head key opt h
  · exact fun u u' key opt h => parseBoolData_head key opt h

/-- Witness for C10: `?k=&k=5` and `?k=` agree on the head of the value
list, so the parses coincide. -/
theorem claim_C10_witness :
    ParseInt [("k", ""), ("k", "5")] "k" [7] = ParseInt [("k", "")] "k" [7] :=
  claim_C10.1 [("k", ""), ("k", "5")] [("k", "")] "k" [7] (by decide)


/-- C3: for every slice Parse call on a present, non-empty key, if any
single element (from repeated-key occurrences or from the comma-split
of a single occurrence) fails to convert, the result has its error set
and its value is the empty, non-null sequence — successfully parsed
elements are discarded; e.g. `?ids=1,bad,3` yields `some []` and an
error. -/
theorem claim_C3 :
    (∀ (u : Query) (key : String) (opt : List (Option (List Int)))
        (raw : String) (rest : List String) (s : String),
      queryGet u key = raw :: rest → raw ≠ "" →
      s ∈ (if rest = [] then splitComma raw else raw :: rest) → Atoi s = none →
      (ParseIntSlice u key opt).Error ≠ none ∧
      (ParseIntSlice u key opt).Value = some []) ∧
    (∀ (u : Query) (key : String) (opt : List (Option (List ℚ)))
        (raw : String) (rest : List String) (s : String),
      queryGet u key = raw :: rest → raw ≠ "" →
      s ∈ (if rest = [] then splitComma raw else raw :: rest) → goFloatConv s = none →
      (ParseFloatSlice u key opt).Error ≠ none ∧
      (ParseFloatSlice u key opt).Value = some []) ∧
    (∀ (u : Query) (key : String) (opt : List (Option (List Bool)))
        (raw : String) (rest : List String) (s : String),
      queryGet u key = raw :: rest → raw ≠ "" →
      s ∈ (if rest = [] then splitComma raw else raw :: rest) → parseBoolValue s = none →
      (ParseBoolSlice u key opt).Error ≠ none ∧
      (ParseBoolSlice u key opt).Value = some []) ∧
    (ParseIntSlice [("ids", "1,bad,3")] "ids" []).Value = some [] ∧
    (ParseIntSlice [("ids", "1,bad,3")] "ids" []).Error ≠ none := by
  refine ⟨?_, ?_, ?_, by decide, by decide⟩
  · intro u key opt raw rest s hdata hraw hs hc
    have he : ParseIntSlice u key opt = parseSliceData Atoi key opt (raw :: rest) := by
      rw [show ParseIntSlice u key opt = parseSliceData Atoi key opt (queryGet u key)
          from rfl, hdata]
    rw [he]
    exact parseSliceData_fail Atoi key opt hraw hs hc
  · intro u key opt raw rest s hdata hraw hs hc
    have he : ParseFloatSlice u key opt = parseSliceData goFloatConv key opt (raw :: rest) := by
      rw [show ParseFloatSlice u key opt = parseSliceData goFloatConv key opt (queryGet u key)
          from rfl, hdata]
    rw [he]
    exact parseSliceData_fail goFloatConv key opt hraw hs hc
  · intro u key opt raw rest s hdata hraw hs hc
    have he : ParseBoolSlice u key opt = parseSliceData parseBoolValue key opt (raw :: rest) := by
      rw [show ParseBoolSlice u key opt = parseSliceData parseBoolValue key opt (queryGet u key)
          from rfl, hdata]
    rw [he]
    exact parseSliceData_fail parseBoolValue key opt hraw hs hc

/-- Witness for C3: the failing element `bad` of `?ids=1,bad,3`. -/
theorem claim_C3_witness :
    (ParseIntSlice [("ids", "1,bad,3")] "ids" []).Error ≠ none ∧
    (ParseIntSlice [("ids", "1,bad,3")] "ids" []).Value = some [] :=
  claim_C3.1 [("ids", "1,bad,3")] "ids" [] "1,bad,3" [] "bad"
    (by decide) (by decide) (by decide) (by decide)

/-- C4 counterexample: the claim quantifies over every sequence of
element literals that all convert successfully; for the string slice
parser conversion is the identity, so the literal list `["a,b", "c"]`
is in its scope, yet its one-occurrence comma encoding `?k=a,b,c`
parses to `["a","b","c"]` while its one-occurrence-per-element encoding
`?k=a,b&k=c` parses to `["a,b","c"]`. -/
theorem claim_C4_counterexample :
    (ParseStringSlice (commaQ "k" ["a,b", "c"]) "k" []).Value ≠
      (ParseStringSlice (repQ "k" ["a,b", "c"]) "k" []).Value := by decide

/-- C4 (amended): the two list encodings `?k=a,b,c` and
`?k=a&k=b&k=c` produce the same value, provided each element literal is
non-empty and contains no comma — for the int, float and bool element
types this proviso is automatic, since a literal that converts
successfully can be neither empty nor contain a comma; e.g.
`?ids=1,2,3` and `?ids=1&ids=2&ids=3` both yield `[1,2,3]`. -/
theorem claim_C4 :
    (∀ (key : String) (lits : List String) (opt : List (Option (List Int))),
      lits ≠ [] → (∀ s ∈ lits, (Atoi s).isSome) →
      (ParseIntSlice (commaQ key lits) key opt).Value =
        (ParseIntSlice (repQ key lits) key opt).Value) ∧
    (∀ (key : String) (lits : List String) (opt : List (Option (List ℚ))),
      lits ≠ [] → (∀ s ∈ lits, (goFloatConv s).isSome) →
      (ParseFloatSlice (commaQ key lits) key opt).Value =
        (ParseFloatSlice (repQ key lits) key opt).Value) ∧
    (∀ (key : String) (lits : List String) (opt : List (Option (List Bool))),
      lits ≠ [] → (∀ s ∈ lits, (parseBoolValue s).isSome) →
      (ParseBoolSlice (commaQ key lits) key opt).Value =
        (ParseBoolSlice (repQ key lits) key opt).Value) ∧
    (∀ (key : String) (lits : List String) (opt : List (Option (List String))),
      lits ≠ [] → (∀ s ∈ lits, s ≠ "" ∧ ',' ∉ s.data) →
      (ParseStringSlice (commaQ key lits) key opt).Value =
        (ParseStringSlice (repQ key lits) key opt).Value) ∧
    (∀ (key : String) (lits : List String),
      lits ≠ [] → (∀ s ∈ lits, s ≠ "" ∧ ',' ∉ s.data) →
      (stringGo.ParseStringSlice (commaQ key lits) key).Value =
        (stringGo.ParseStringSlice (repQ key lits) key).Value) ∧
    (ParseIntSlice (commaQ "ids" ["1", "2", "3"]) "ids" []).Value = some [1, 2, 3] ∧
    (ParseIntSlice (repQ "ids" ["1", "2", "3"]) "ids" []).Value = some [1, 2, 3] := by
  refine ⟨?_, ?_, ?_, ?_, ?_, by decide, by decide⟩
  · intro key lits opt hne hsome
    exact congrArg Result.Value (parseSliceData_dual Atoi key opt hne
      (fun s hs => (Atoi_isSome_props (hsome s hs)).1)
      (fun s hs => (Atoi_isSome_props (hsome s hs)).2))
  · intro key lits opt hne hsome
    exact congrArg Result.Value (parseSliceData_dual goFloatConv key opt hne
      (fun s hs => (goFloatConv_isSome_props (hsome s hs)).1)
      (fun s hs => (goFloatConv_isSome_props (hsome s hs)).2))
  · intro key lits opt hne hsome
    exact congrArg Result.Value (parseSliceData_dual parseBoolValue key opt hne
      (fun s hs => (parseBoolValue_isSome_props (hsome s hs)).1)
      (fun s hs => (parseBoolValue_isSome_props (hsome s hs)).2))
  · intro key lits opt hne hprops
    exact congrArg Result.Value (parseStringSliceData_dual key opt hne
      (fun s hs => (hprops s hs).1) (fun s hs => (hprops s hs).2))
  · intro key lits hne hprops
    exact congrArg Result.Value (stringGo_parseStringSliceData_dual key hne
      (fun s hs => (hprops s hs).1) (fun s hs => (hprops s hs).2))

/-- Witness for C4: the literal list `["1","2","3"]`. -/
theorem claim_C4_witness :
    (ParseIntSlice (commaQ "ids" ["1", "2", "3"]) "ids" []).Value =
      (ParseIntSlice (repQ "ids" ["1", "2", "3"]) "ids" []).Value :=
  claim_C4.1 "ids" ["1", "2", "3"] [] (by decide) (by decide)

/-- C5: boolean conversion accepts, case-insensitively, exactly the
strings 1, true, yes, on (true) and 0, false, no, off (false) and
fails on every other string including "2" and ""; `ParseBool` reads at
most a single optional default (extra options never affect the result)
and populates no range or allow-list fields. -/
theorem claim_C5 :
    (∀ s : String, parseBoolValue s =
        (if lowerString s ∈ ["1", "true", "yes", "on"] then some true
         else if lowerString s ∈ ["0", "false", "no", "off"] then some false
         else none)) ∧
    parseBoolValue "1" = some true ∧ parseBoolValue "true" = some true ∧
    parseBoolValue "YES" = some true ∧ parseBoolValue "On" = some true ∧
    parseBoolValue "0" = some false ∧ parseBoolValue "false" = some false ∧
    parseBoolValue "no" = some false ∧ parseBoolValue "off" = some false ∧
    parseBoolValue "2" = none ∧ parseBoolValue "" = none ∧
    (∀ (u : Query) (key : String) (opt : List Bool),
      ParseBool u key opt = ParseBool u key (opt.take 1)) ∧
    (∀ (u : Query) (key : String) (opt : List Bool),
      (ParseBool u key opt).Others = none ∧
      (ParseBool u key opt).Min = false ∧ (ParseBool u key opt).Max = false) := by
  refine ⟨?_, by decide, by decide, by decide, by decide, by decide, by decide,
    by decide, by decide, by decide, by decide, ?_, ?_⟩
  · intro s
    simp only [parseBoolValue, List.mem_cons, List.mem_singleton, List.not_mem_nil, or_false]
  · exact fun u key opt => parseBoolData_take_one key opt (queryGet u key)
  · exact fun u key opt => parseBoolData_fields key opt (queryGet u key)

/-- C6: for every `ParseString` call with more than one option, the
result's `Others` equals the entire option list including the default
`options[0]`, and a present, non-empty raw value is accepted iff it is
a member of that list; otherwise the error is set and the value stays
at the default. -/
theorem claim_C6 :
    ∀ (u : Query) (key d0 d1 : String) (ds : List String),
      (ParseString u key (d0 :: d1 :: ds)).Others = some (d0 :: d1 :: ds) ∧
      (∀ raw t, queryGet u key = raw :: t → raw ≠ "" →
        (raw ∈ d0 :: d1 :: ds →
          (ParseString u key (d0 :: d1 :: ds)).Value = raw ∧
          (ParseString u key (d0 :: d1 :: ds)).Error = none) ∧
        (raw ∉ d0 :: d1 :: ds →
          (ParseString u key (d0 :: d1 :: ds)).Error ≠ none ∧
          (ParseString u key (d0 :: d1 :: ds)).Value = d0)) := by
  intro u key d0 d1 ds
  constructor
  · exact parseStringData_others key d0 d1 ds (queryGet u key)
  · intro raw t hdata hraw
    have he : ParseString u key (d0 :: d1 :: ds) =
        parseStringData key (d0 :: d1 :: ds) (raw :: t) := by
      rw [show ParseString u key (d0 :: d1 :: ds) =
          parseStringData key (d0 :: d1 :: ds) (queryGet u key) from rfl, hdata]
    rw [he]
    obtain ⟨hOth, hin, hout⟩ := parseStringData_validate key d0 d1 ds raw t hraw
    exact ⟨hin, hout⟩

/-- Witness for C6: `?n=admin` against allow-list guest/admin/user. -/
theorem claim_C6_witness :
    (ParseString [("n", "admin")] "n" ["guest", "admin", "user"]).Value = "admin" ∧
    (ParseString [("n", "admin")] "n" ["guest", "admin", "user"]).Error = none :=
  ((claim_C6 [("n", "admin")] "n" "guest" "admin" ["user"]).2 "admin" []
    (by decide) (by decide)).1 (by decide)

/-- C7: every result of every Parse function satisfies both flag
invariants: contains=false implies empty=true, and a non-nil error
implies contains=true and empty=false. -/
theorem claim_C7 :
    (∀ (u : Query) (key : String) (opt : List Int), flagInv (ParseInt u key opt)) ∧
    (∀ (u : Query) (key : String) (opt : List ℚ), flagInv (ParseFloat u key opt)) ∧
    (∀ (u : Query) (key : String) (opt : List String), flagInv (ParseString u key opt)) ∧
    (∀ (u : Query) (key : String) (opt : List Bool), flagInv (ParseBool u key opt)) ∧
    (∀ (u : Query) (key : String) (opt : List (Option (List Int))),
      flagInv (ParseIntSlice u key opt)) ∧
    (∀ (u : Query) (key : String) (opt : List (Option (List ℚ))),
      flagInv (ParseFloatSlice u key opt)) ∧
    (∀ (u : Query) (key : String) (opt : List (Option (List Bool))),
      flagInv (ParseBoolSlice u key opt)) ∧
    (∀ (u : Query) (key : String) (opt : List (Option (List String))),
      flagInv (ParseStringSlice u key opt)) ∧
    (∀ (u : Query) (key : String), flagInv (stringGo.ParseStringSlice u key)) := by
  refine ⟨?_, ?_, ?_, ?_, ?_, ?_, ?_, ?_, ?_⟩
  · exact fun u key opt => flagInv_parseNumData 0 Atoi (fun x => toString x) key opt (queryGet u key)
  · exact fun u key opt => flagInv_parseNumData 0 goFloatConv (fun x => toString x) key opt (queryGet u key)
  · exact fun u key opt => flagInv_parseStringData key opt (queryGet u key)
  · exact fun u key opt => flagInv_parseBoolData key opt (queryGet u key)
  · exact fun u key opt => flagInv_parseSliceData Atoi key opt (queryGet u key)
  · exact fun u key opt => flagInv_parseSliceData goFloatConv key opt (queryGet u key)
  · exact fun u key opt => flagInv_parseSliceData parseBoolValue key opt (queryGet u key)
  · exact fun u key opt => flagInv_parseStringSliceData key opt (queryGet u key)
  · exact fun u key => flagInv_stringGo_parseStringSliceData key (queryGet u key)

/-- C8 counterexample: the claim states Pull returns null iff the Parse
result has contains=false; but with a caller-supplied nil default
sequence and a present-but-empty key, `PullIntSlice` returns the nil
slice while contains is true. -/
theorem claim_C8_counterexample :
    (ParseIntSlice [("ids", "")] "ids" [none]).Contains = true ∧
    PullIntSlice [("ids", "")] "ids" [none] = none := by decide

/-- C8 (amended): Get and Pull are determined by the corresponding
Parse result `r` on the same arguments: Get returns the pair
`(r.value, r.contains && !r.empty && r.error == nil)`; the scalar Pulls
return null iff `r.contains` is false and otherwise a reference to
`r.value`; the slice Pulls return null when `r.contains` is false and
otherwise `r.value` itself, which is null exactly when a null default
sequence was supplied and the key was present but empty.  In
particular `PullString` on an absent key returns null even when a
default option was supplied. -/
theorem claim_C8 :
    (∀ (u : Query) (key : String) (opt : List Int), GetInt u key opt =
      ((ParseInt u key opt).Value,
        (ParseInt u key opt).Contains && !(ParseInt u key opt).Empty &&
          (ParseInt u key opt).Error.isNone)) ∧
    (∀ (u : Query) (key : String) (opt : List Int), PullInt u key opt =
      (if (ParseInt u key opt).Contains then some (ParseInt u key opt).Value else none)) ∧
    (∀ (u : Query) (key : String) (opt : List ℚ), GetFloat u key opt =
      ((ParseFloat u key opt).Value,
        (ParseFloat u key opt).Contains && !(ParseFloat u key opt).Empty &&
          (ParseFloat u key opt).Error.isNone)) ∧
    (∀ (u : Query) (key : String) (opt : List ℚ), PullFloat u key opt =
      (if (ParseFloat u key opt).Contains then some (ParseFloat u key opt).Value else none)) ∧
    (∀ (u : Query) (key : String) (opt : List Bool), GetBool u key opt =
      ((ParseBool u key opt).Value,
        (ParseBool u key opt).Contains && !(ParseBool u key opt).Empty &&
          (ParseBool u key opt).Error.isNone)) ∧
    (∀ (u : Query) (key : String) (opt : List Bool), PullBool u key opt =
      (if (ParseBool u key opt).Contains then some (ParseBool u key opt).Value else none)) ∧
    (∀ (u : Query) (key : String) (opt : List String), GetString u key opt =
      ((ParseString u key opt).Value,
        (ParseString u key opt).Contains && !(ParseString u key opt).Empty &&
          (ParseString u key opt).Error.isNone)) ∧
    (∀ (u : Query) (key : String) (opt : List String), PullString u key opt =
      (if (ParseString u key opt).Contains then some (ParseString u key opt).Value else none)) ∧
    (∀ (u : Query) (key : String) (opt : List (Option (List Int))), GetIntSlice u key opt =
      ((ParseIntSlice u key opt).Value,
        (ParseIntSlice u key opt).Contains && !(ParseIntSlice u key opt).Empty &&
          (ParseIntSlice u key opt).Error.isNone)) ∧
    (∀ (u : Query) (key : String) (opt : List (Option (List Int))), PullIntSlice u key opt =
      (if (ParseIntSlice u key opt).Contains then (ParseIntSlice u key opt).Value else none)) ∧
    (∀ (u : Query) (key : String) (opt : List (Option (List ℚ))), GetFloatSlice u key opt =
      ((ParseFloatSlice u key opt).Value,
        (ParseFloatSlice u key opt).Contains && !(ParseFloatSlice u key opt).Empty &&
          (ParseFloatSlice u key opt).Error.isNone)) ∧
    (∀ (u : Query) (key : String) (opt : List (Option (List ℚ))), PullFloatSlice u key opt =
      (if (ParseFloatSlice u key opt).Contains then (ParseFloatSlice u key opt).Value else none)) ∧
    (∀ (u : Query) (key : String) (opt : List (Option (List Bool))), GetBoolSlice u key opt =
      ((ParseBoolSlice u key opt).Value,
        (ParseBoolSlice u key opt).Contains && !(ParseBoolSlice u key opt).Empty &&
          (ParseBoolSlice u key opt).Error.isNone)) ∧
    (∀ (u : Query) (key : String) (opt : List (Option (List Bool))), PullBoolSlice u key opt =
      (if (ParseBoolSlice u key opt).Contains then (ParseBoolSlice u key opt).Value else none)) ∧
    (∀ (u : Query) (key : String) (opt : List (Option (List String))), GetStringSlice u key opt =
      ((ParseStringSlice u key opt).Value,
        (ParseStringSlice u key opt).Contains && !(ParseStringSlice u key opt).Empty &&
          (ParseStringSlice u key opt).Error.isNone)) ∧
    (∀ (u : Query) (key : String) (opt : List (Option (List String))), PullStringSlice u key opt =
      (if (ParseStringSlice u key opt).Contains then (ParseStringSlice u key opt).Value else none)) ∧
    (∀ (u : Query) (key : String), stringGo.GetStringSlice u key =
      (stringGo.ParseStringSlice u key).Value) ∧
    PullString [("x", "1")] "name" ["guest"] = none := by
  refine ⟨fun u key opt => rfl, ?_, fun u key opt => rfl, ?_, fun u key opt => rfl, ?_,
    fun u key opt => rfl, ?_, fun u key opt => rfl, ?_, fun u key opt => rfl, ?_,
    fun u key opt => rfl, ?_, fun u key opt => rfl, ?_, fun u key => rfl, by decide⟩
  · intro u key opt
    cases h : (ParseInt u key opt).Contains <;> simp [PullInt, h]
  · intro u key opt
    cases h : (ParseFloat u key opt).Contains <;> simp [PullFloat, h]
  · intro u key opt
    cases h : (ParseBool u key opt).Contains <;> simp [PullBool, h]
  · intro u key opt
    cases h : (ParseString u key opt).Contains <;> simp [PullString, h]
  · intro u key opt
    cases h : (ParseIntSlice u key opt).Contains <;> simp [PullIntSlice, h]
  · intro u key opt
    cases h : (ParseFloatSlice u key opt).Contains <;> simp [PullFloatSlice, h]
  · intro u key opt
    cases h : (ParseBoolSlice u key opt).Contains <;> simp [PullBoolSlice, h]
  · intro u key opt
    cases h : (ParseStringSlice u key opt).Contains <;> simp [PullStringSlice, h]

/-- C9 counterexample: with a caller-supplied nil default sequence and
a present-but-empty key, the slice result has contains=true and a null
value. -/
theorem claim_C9_counterexample :
    (ParseIntSlice [("ids", "")] "ids" [none]).Contains = true ∧
    (ParseIntSlice [("ids", "")] "ids" [none]).Value = none := by decide

/-- C9 (amended): for every slice Parse call whose caller-supplied
default sequence, if any, is itself non-null, a result with
contains=true has a non-null value (so a null value is reachable only
together with contains=false); for the option-less `string.go` slice
parser this holds unconditionally. -/
theorem claim_C9 :
    (∀ (u : Query) (key : String) (opt : List (Option (List Int))),
      opt.headD (some []) ≠ none →
      ((ParseIntSlice u key opt).Contains = true → (ParseIntSlice u key opt).Value ≠ none)) ∧
    (∀ (u : Query) (key : String) (opt : List (Option (List ℚ))),
      opt.headD (some []) ≠ none →
      ((ParseFloatSlice u key opt).Contains = true → (ParseFloatSlice u key opt).Value ≠ none)) ∧
    (∀ (u : Query) (key : String) (opt : List (Option (List Bool))),
      opt.headD (some []) ≠ none →
      ((ParseBoolSlice u key opt).Contains = true → (ParseBoolSlice u key opt).Value ≠ none)) ∧
    (∀ (u : Query) (key : String) (opt : List (Option (List String))),
      opt.headD (some []) ≠ none →
      ((ParseStringSlice u key opt).Contains = true →
        (ParseStringSlice u key opt).Value ≠ none)) ∧
    (∀ (u : Query) (key : String),
      (stringGo.ParseStringSlice u key).Contains = true →
        (stringGo.ParseStringSlice u key).Value ≠ none) := by
  refine ⟨?_, ?_, ?_, ?_, ?_⟩
  · exact fun u key opt h => parseSliceData_value_some Atoi key opt (queryGet u key) h
  · exact fun u key opt h => parseSliceData_value_some goFloatConv key opt (queryGet u key) h
  · exact fun u key opt h => parseSliceData_value_some parseBoolValue key opt (queryGet u key) h
  · exact fun u key opt h => parseStringSliceData_value_some key opt (queryGet u key) h
  · exact fun u key => stringGo_parseStringSliceData_value_some key (queryGet u key)

/-- Witness for C9: a present key with no options. -/
theorem claim_C9_witness :
    (ParseIntSlice [("ids", "5")] "ids" []).Value ≠ none :=
  claim_C9.1 [("ids", "5")] "ids" [] (by decide) (by decide)

end QP
